import Mathlib

/-!
Verification of the core data model and algorithms of a reproducible-pipeline
engine (stage staleness, ignore-pattern matching, immutable index, checkout
aggregation, run-cache skip logic), shallowly embedded from the Python source
in `dvc/ignore.py`, `dvc/stage/__init__.py` and `dvc/repo/index.py`.
-/

/-! ## Ignore pattern matching (`dvc/ignore.py`, `DvcIgnorePatterns`)

A compiled ignore pattern is modelled as a matcher on already-normalized
relative path strings plus the polarity produced by
`GitWildMatchPattern.pattern_to_regex` (`None` for comment/blank lines, which
the compiled spec drops). -/

/-- A compiled regex is modelled extensionally as a predicate on path strings. -/
abbrev Matcher := String → Bool

/-- One element of `DvcIgnorePatterns.regex_pattern_list`: the compiled regex
together with the `ignore` polarity returned by `pattern_to_regex`
(`none` models a pattern compiled to `(None, None)`). -/
structure RegexEntry where
  matcher : Matcher
  polarity : Option Bool

namespace DvcIgnorePatterns

/-- Embedding of `itertools.groupby(regex_pattern_list, lambda x: x[1])`:
splits the compiled list into maximal runs of consecutive entries with equal
polarity, preserving order. -/
def chunksBy : List RegexEntry → List (Option Bool × List RegexEntry)
  | [] => []
  | e :: rest =>
    match chunksBy rest with
    | [] => [(e.polarity, [e])]
    | (k, g) :: gs =>
      if e.polarity = k then (k, e :: g) :: gs
      else (e.polarity, [e]) :: (k, g) :: gs

/-- Embedding of the `ignore_spec` construction: each same-polarity run is
compiled into a single alternation regex (`re.compile("|".join(...))`,
modelled as `List.any` over the members), and runs whose polarity is `None`
are dropped (`if ignore is not None`). -/
def ignoreSpec (pats : List RegexEntry) : List (Bool × Matcher) :=
  (chunksBy pats).filterMap fun kg =>
    kg.1.map fun b => (b, fun p => kg.2.any fun e => e.matcher p)

/-- Embedding of `DvcIgnorePatterns.ignore(path, is_dir)`: walk the compiled
spec in order, overwriting `result` with the polarity of every group that
matches; for directory candidates the path is additionally tried with a
trailing slash. -/
def ignore (spec : List (Bool × Matcher)) (path : String) (is_dir : Bool) :
    Bool :=
  if is_dir then
    spec.foldl
      (fun result im =>
        if im.2 path || im.2 (path ++ "/") then im.1 else result)
      false
  else
    spec.foldl (fun result im => if im.2 path then im.1 else result) false

end DvcIgnorePatterns

/-- Whether a single source pattern matches the candidate, trying the
trailing-slash variant for directory candidates, exactly as the compiled
group regexes are applied in `DvcIgnorePatterns.ignore`. -/
def entryMatches (e : RegexEntry) (path : String) (is_dir : Bool) : Bool :=
  e.matcher path || (is_dir && e.matcher (path ++ "/"))

/-- The specification-side decision: the polarity of the last pattern in the
ordered list that matches the path (patterns compiled to no polarity do not
participate), and `false` when no pattern matches. -/
def lastMatchDecision (pats : List RegexEntry) (path : String)
    (is_dir : Bool) : Bool :=
  match (pats.filter fun e => e.polarity.isSome).reverse.find?
      (fun e => entryMatches e path is_dir) with
  | some e => e.polarity.getD false
  | none => false

namespace DvcIgnorePatterns

/-- The last-match accumulator over the grouped spec, with an arbitrary
starting value, so that `foldl` facts can be proved by induction. -/
def lastG (path : String) (is_dir : Bool)
    (a : Option Bool) (spec : List (Bool × Matcher)) : Option Bool :=
  spec.foldl
    (fun r im =>
      if im.2 path || (is_dir && im.2 (path ++ "/")) then some im.1 else r)
    a

/-- The last-match accumulator over raw entries. -/
def lastE (path : String) (is_dir : Bool)
    (a : Option Bool) (pats : List RegexEntry) : Option Bool :=
  pats.foldl
    (fun r e =>
      if e.polarity.isSome && entryMatches e path is_dir then e.polarity
      else r)
    a

theorem ignore_eq_lastG (spec : List (Bool × Matcher)) (path : String)
    (is_dir : Bool) :
    ignore spec path is_dir = (lastG path is_dir none spec).getD false := by
  have h :
      ∀ (l : List (Bool × Matcher)) (r : Bool) (a : Option Bool),
        a.getD false = r →
        (l.foldl
            (fun result im =>
              if im.2 path || (is_dir && im.2 (path ++ "/")) then im.1
              else result)
            r) =
          (lastG path is_dir a l).getD false := by
    intro l
    induction l with
    | nil => intro r a ha; simpa [lastG] using ha.symm
    | cons im t ih =>
      intro r a ha
      simp only [lastG, List.foldl_cons]
      by_cases hm : (im.2 path || (is_dir && im.2 (path ++ "/"))) = true
      · rw [if_pos hm, if_pos hm]
        exact ih im.1 (some im.1) rfl
      · rw [if_neg hm, if_neg hm]
        exact ih r a ha
  cases is_dir with
  | false =>
    have := h spec false none rfl
    simpa [ignore] using this
  | true =>
    have := h spec false none rfl
    simpa [ignore] using this

theorem lastG_append (path : String) (is_dir : Bool) (a : Option Bool)
    (l₁ l₂ : List (Bool × Matcher)) :
    lastG path is_dir a (l₁ ++ l₂) =
      lastG path is_dir (lastG path is_dir a l₁) l₂ := by
  simp [lastG, List.foldl_append]

theorem lastE_append (path : String) (is_dir : Bool) (a : Option Bool)
    (l₁ l₂ : List RegexEntry) :
    lastE path is_dir a (l₁ ++ l₂) =
      lastE path is_dir (lastE path is_dir a l₁) l₂ := by
  simp [lastE, List.foldl_append]

/-- Over a run of entries that all carry the same polarity `k`, the raw
last-match accumulator either keeps its input (no member matches) or ends at
`k` (some member matches). -/
theorem lastE_uniform (path : String) (is_dir : Bool) (g : List RegexEntry)
    (k : Option Bool) (hk : ∀ e ∈ g, e.polarity = k) (a : Option Bool) :
    lastE path is_dir a g =
      if k.isSome && g.any (fun e => entryMatches e path is_dir) then k
      else a := by
  induction g generalizing a with
  | nil => simp [lastE]
  | cons e t ih =>
    have he : e.polarity = k := hk e (by simp)
    have ht : ∀ x ∈ t, x.polarity = k := fun x hx => hk x (by simp [hx])
    have step : lastE path is_dir a (e :: t) =
        lastE path is_dir
          (if e.polarity.isSome && entryMatches e path is_dir then e.polarity
            else a) t := rfl
    rw [step, ih ht]
    cases hm : entryMatches e path is_dir with
    | true =>
      cases hko : k with
      | none => subst hko; simp [he, hm]
      | some b =>
        subst hko
        cases htany : t.any (fun x => entryMatches x path is_dir) <;>
          simp [he, hm, htany]
    | false =>
      cases hko : k with
      | none => subst hko; simp [he, hm]
      | some b =>
        subst hko
        cases htany : t.any (fun x => entryMatches x path is_dir) <;>
          simp [he, hm, htany]

theorem chunksBy_flatten (pats : List RegexEntry) :
    ((chunksBy pats).map Prod.snd).flatten = pats := by
  induction pats with
  | nil => simp [chunksBy]
  | cons e rest ih =>
    simp only [chunksBy]
    cases h : chunksBy rest with
    | nil =>
      rw [h] at ih
      simp at ih
      simp [ih]
    | cons kg gs =>
      rw [h] at ih
      by_cases hp : e.polarity = kg.1
      · rw [show
            (match (kg.1, kg.2) :: gs with
              | [] => [(e.polarity, [e])]
              | (k, g) :: gs =>
                if e.polarity = k then (k, e :: g) :: gs
                else (e.polarity, [e]) :: (k, g) :: gs) =
            (kg.1, e :: kg.2) :: gs from by simp [hp]]
        simpa using ih
      · rw [show
            (match (kg.1, kg.2) :: gs with
              | [] => [(e.polarity, [e])]
              | (k, g) :: gs =>
                if e.polarity = k then (k, e :: g) :: gs
                else (e.polarity, [e]) :: (k, g) :: gs) =
            (e.polarity, [e]) :: (kg.1, kg.2) :: gs from by simp [hp]]
        simpa using ih

theorem chunksBy_uniform (pats : List RegexEntry) :
    ∀ kg ∈ chunksBy pats, ∀ e ∈ kg.2, e.polarity = kg.1 := by
  induction pats with
  | nil => simp [chunksBy]
  | cons e rest ih =>
    simp only [chunksBy]
    cases h : chunksBy rest with
    | nil =>
      intro kg hkg x hx
      simp at hkg
      subst hkg
      simp at hx
      subst hx
      rfl
    | cons kg0 gs =>
      rw [h] at ih
      by_cases hp : e.polarity = kg0.1
      · rw [show
            (match (kg0.1, kg0.2) :: gs with
              | [] => [(e.polarity, [e])]
              | (k, g) :: gs =>
                if e.polarity = k then (k, e :: g) :: gs
                else (e.polarity, [e]) :: (k, g) :: gs) =
            (kg0.1, e :: kg0.2) :: gs from by simp [hp]]
        intro kg hkg x hx
        rcases List.mem_cons.mp hkg with h1 | h2
        · subst h1
          rcases List.mem_cons.mp hx with h3 | h4
          · subst h3; exact hp
          · exact ih (kg0.1, kg0.2) (by simp) x h4
        · exact ih kg (by simp [h2]) x hx
      · rw [show
            (match (kg0.1, kg0.2) :: gs with
              | [] => [(e.polarity, [e])]
              | (k, g) :: gs =>
                if e.polarity = k then (k, e :: g) :: gs
                else (e.polarity, [e]) :: (k, g) :: gs) =
            (e.polarity, [e]) :: (kg0.1, kg0.2) :: gs from by simp [hp]]
        intro kg hkg x hx
        rcases List.mem_cons.mp hkg with h1 | h2
        · subst h1; simp at hx; subst hx; rfl
        · exact ih kg h2 x hx

end DvcIgnorePatterns

namespace DvcIgnorePatterns

theorem groupAny (g : List RegexEntry) (path : String) (is_dir : Bool) :
    ((g.any fun e => e.matcher path) ||
        (is_dir && g.any fun e => e.matcher (path ++ "/"))) =
      g.any (fun e => entryMatches e path is_dir) := by
  rw [Bool.eq_iff_iff]
  simp only [Bool.or_eq_true, Bool.and_eq_true, List.any_eq_true, entryMatches]
  constructor
  · rintro (⟨e, he, hm⟩ | ⟨hd, e, he, hm⟩)
    · exact ⟨e, he, Or.inl hm⟩
    · exact ⟨e, he, Or.inr ⟨hd, hm⟩⟩
  · rintro ⟨e, he, hm | ⟨hd, hm⟩⟩
    · exact Or.inl ⟨e, he, hm⟩
    · exact Or.inr ⟨hd, e, he, hm⟩

theorem lastG_spec_chunks (path : String) (is_dir : Bool)
    (cs : List (Option Bool × List RegexEntry))
    (hu : ∀ kg ∈ cs, ∀ e ∈ kg.2, e.polarity = kg.1) (a : Option Bool) :
    lastG path is_dir a
        (cs.filterMap fun kg =>
          kg.1.map fun b => (b, fun p => kg.2.any fun e => e.matcher p)) =
      lastE path is_dir a ((cs.map Prod.snd).flatten) := by
  induction cs generalizing a with
  | nil => simp [lastG, lastE]
  | cons kg cs' ih =>
    have hukg : ∀ e ∈ kg.2, e.polarity = kg.1 := hu kg (by simp)
    have hu' : ∀ x ∈ cs', ∀ e ∈ x.2, e.polarity = x.1 :=
      fun x hx => hu x (by simp [hx])
    have hflat : ((kg :: cs').map Prod.snd).flatten =
        kg.2 ++ (cs'.map Prod.snd).flatten := by simp
    rw [hflat, lastE_append,
      lastE_uniform path is_dir kg.2 kg.1 hukg a]
    cases hk : kg.1 with
    | none =>
      have hfm : ((kg :: cs').filterMap fun x =>
            x.1.map fun b => (b, fun p => x.2.any fun e => e.matcher p)) =
          (cs'.filterMap fun x =>
            x.1.map fun b => (b, fun p => x.2.any fun e => e.matcher p)) := by
        rw [List.filterMap_cons]
        simp [hk]
      rw [hfm, ih hu']
      simp [hk]
    | some b =>
      have hfm : ((kg :: cs').filterMap fun x =>
            x.1.map fun b => (b, fun p => x.2.any fun e => e.matcher p)) =
          (b, fun p => kg.2.any fun e => e.matcher p) ::
            (cs'.filterMap fun x =>
              x.1.map fun b => (b, fun p => x.2.any fun e => e.matcher p)) := by
        rw [List.filterMap_cons]
        simp [hk]
      rw [hfm]
      have hstep : lastG path is_dir a
            ((b, fun p => kg.2.any fun e => e.matcher p) ::
              (cs'.filterMap fun x =>
                x.1.map fun b => (b, fun p => x.2.any fun e => e.matcher p))) =
          lastG path is_dir
            (if (kg.2.any fun e => e.matcher path) ||
                (is_dir && kg.2.any fun e => e.matcher (path ++ "/")) then
              some b
            else a)
            (cs'.filterMap fun x =>
              x.1.map fun b => (b, fun p => x.2.any fun e => e.matcher p)) := by
        simp only [lastG, List.foldl_cons]
      rw [hstep, ih hu', groupAny]
      simp [hk]

theorem lastE_eq_find (path : String) (is_dir : Bool)
    (pats : List RegexEntry) (a : Option Bool) :
    lastE path is_dir a pats =
      match (pats.filter fun e => e.polarity.isSome).reverse.find?
          (fun e => entryMatches e path is_dir) with
      | some e => e.polarity
      | none => a := by
  induction pats using List.reverseRecOn generalizing a with
  | nil => simp [lastE]
  | append_singleton l e ih =>
    rw [lastE_append]
    have hsingle : lastE path is_dir (lastE path is_dir a l) [e] =
        if e.polarity.isSome && entryMatches e path is_dir then e.polarity
        else lastE path is_dir a l := rfl
    rw [hsingle]
    cases hs : e.polarity.isSome with
    | false =>
      have hfilter : ((l ++ [e]).filter fun x => x.polarity.isSome) =
          (l.filter fun x => x.polarity.isSome) := by
        simp [List.filter_append, hs]
      rw [hfilter]
      simp only [Bool.false_and, if_neg Bool.false_ne_true]
      exact ih a
    | true =>
      have hfilter : ((l ++ [e]).filter fun x => x.polarity.isSome) =
          (l.filter fun x => x.polarity.isSome) ++ [e] := by
        simp [List.filter_append, hs]
      rw [hfilter, List.reverse_append]
      simp only [List.reverse_singleton, List.singleton_append,
        List.find?_cons]
      cases hm : entryMatches e path is_dir with
      | true => simp [hs, hm]
      | false => simp [hs, hm, ih a]

/-- Composition: the source `ignore` over the compiled, polarity-grouped spec
computes exactly the last-match decision over the original pattern list. -/
theorem ignore_eq_lastMatchDecision (pats : List RegexEntry) (path : String)
    (is_dir : Bool) :
    ignore (ignoreSpec pats) path is_dir = lastMatchDecision pats path is_dir := by
  rw [ignore_eq_lastG, ignoreSpec,
    lastG_spec_chunks path is_dir (chunksBy pats) (chunksBy_uniform pats) none,
    chunksBy_flatten, lastE_eq_find, lastMatchDecision]
  cases hf : (pats.filter fun e => e.polarity.isSome).reverse.find?
      (fun e => entryMatches e path is_dir) with
  | none => simp
  | some e => simp

end DvcIgnorePatterns

/-! ### Concrete compiled patterns for the `["*.log", "!keep"]` scenario -/

/-- Splitting a normalized relative path at `/`, structurally on the
character list (the embedding's replacement for regex segment handling). -/
def splitSlashAux : List Char → List Char → List String
  | [], acc => [String.mk acc.reverse]
  | c :: cs, acc =>
    if c = '/' then String.mk acc.reverse :: splitSlashAux cs []
    else splitSlashAux cs (c :: acc)

/-- Path segments of a normalized relative path string. -/
def splitSlash (s : String) : List String := splitSlashAux s.data []

/-- Boolean prefix test on character lists. -/
def charsPrefix : List Char → List Char → Bool
  | [], _ => true
  | _ :: _, [] => false
  | a :: as, b :: bs => a = b && charsPrefix as bs

/-- Boolean suffix test on strings, via reversed character lists. -/
def strEndsWith (s suf : String) : Bool :=
  charsPrefix suf.data.reverse s.data.reverse

/-- Model of the regex compiled by
`GitWildMatchPattern.pattern_to_regex("*.log")`, which is
`^(?:.+/)?[^/]*\.log(?:/.*)?$`: some path segment ends with `.log`. -/
def matchStarLog : Matcher := fun p =>
  (splitSlash p).any fun seg => strEndsWith seg ".log"

/-- Model of the regex compiled by
`GitWildMatchPattern.pattern_to_regex("!keep")`, which is
`^(?:.+/)?keep(?:/.*)?$` with negated polarity: some path segment is exactly
`keep`. -/
def matchKeep : Matcher := fun p =>
  (splitSlash p).any fun seg => decide (seg = "keep")

/-- The compiled form of the rule list `["*.log", "!keep"]`. -/
def logKeepPatterns : List RegexEntry :=
  [⟨matchStarLog, some true⟩, ⟨matchKeep, some false⟩]

/-- The compiled form of the reversed rule list `["!keep", "*.log"]`. -/
def keepLogPatterns : List RegexEntry :=
  [⟨matchKeep, some false⟩, ⟨matchStarLog, some true⟩]

/-- C5 counterexample: with the reversed rule list `["!keep", "*.log"]`, the
file `keep` is still **not** ignored (`keep` matches only the negation
pattern, whose polarity is `False` wherever it sits), refuting the claim that
reversing the rule order makes `keep` ignored. -/
theorem C5_counterexample_reversed_keep_not_ignored :
    DvcIgnorePatterns.ignore
      (DvcIgnorePatterns.ignoreSpec keepLogPatterns) "keep" false = false := by
  decide

/-- C5 (amended): for every compiled ignore-pattern set and candidate path,
the ignore decision is the polarity of the last pattern in the ordered list
that matches the path (directory candidates are also tried with a trailing
slash), and a path matched by no pattern is not ignored; with rules
`["*.log", "!keep"]` the file `keep` is not ignored while `*.log` siblings
are, and with the rule order reversed `keep` is still not ignored, since it
is matched only by the `!keep` pattern. -/
theorem C5_ignore_last_match_wins :
    (∀ (pats : List RegexEntry) (path : String) (is_dir : Bool),
        DvcIgnorePatterns.ignore (DvcIgnorePatterns.ignoreSpec pats) path
            is_dir =
          lastMatchDecision pats path is_dir) ∧
      DvcIgnorePatterns.ignore
          (DvcIgnorePatterns.ignoreSpec logKeepPatterns) "keep" false =
        false ∧
      DvcIgnorePatterns.ignore
          (DvcIgnorePatterns.ignoreSpec logKeepPatterns) "a.log" false =
        true ∧
      DvcIgnorePatterns.ignore
          (DvcIgnorePatterns.ignoreSpec keepLogPatterns) "keep" false =
        false :=
  ⟨DvcIgnorePatterns.ignore_eq_lastMatchDecision, by decide, by decide,
    by decide⟩

/-! ## Stage model (`dvc/stage/__init__.py`)

A stage is embedded with its staleness-relevant fields. Effectful leaf
queries (`dep.status()`, `out.status()`, `out.checkout()`, `compute_md5()`)
are represented by their observed results, recorded on the dependency/output
values: the claims under verification are about how `Stage` combines those
results, not about the leaves themselves. -/

/-- A dependency, carrying the observed result of `dep.status()`
(`status_nonempty` means the returned dict was non-empty, i.e. the current
observed state differs from the last recorded state). -/
structure Dep where
  status_nonempty : Bool
deriving DecidableEq

/-- An output: observed `out.status()` result, the `persist` flag, the
`path_info`, and the observed outcome of `out.checkout(...)` — either a
`CheckoutError` carrying its `target_infos`, or `None`/`(added, modified)`. -/
structure Out where
  status_nonempty : Bool
  persist : Bool
  path_info : String
  checkout_result : Except (List String) (Option (Bool × Bool))

/-- Stage fields relevant to the staleness algorithm and stage creation.
`computed_md5` is the observed result of `compute_md5(self)`. -/
structure Stage where
  cmd : Option String
  deps : List Dep
  outs : List Out
  md5 : Option String
  computed_md5 : String
  locked : Bool
  always_changed : Bool

namespace Stage

/-- Embedding of `Stage.is_data_source`: the DVC-file has no command. -/
def is_data_source (s : Stage) : Bool := s.cmd.isNone

/-- Embedding of `Stage.is_callback`: a command but zero dependencies. -/
def is_callback (s : Stage) : Bool := !s.is_data_source && s.deps.isEmpty

/-- The `for dep in self.deps: if dep.status(): return True` loop of
`changed_deps`, with its early return. -/
def changedDepsLoop : List Dep → Bool
  | [] => false
  | d :: rest => if d.status_nonempty then true else changedDepsLoop rest

/-- Embedding of `Stage.changed_deps()`. -/
def changed_deps (s : Stage) : Bool :=
  if s.locked then false
  else if s.is_callback then true
  else if s.always_changed then true
  else changedDepsLoop s.deps

/-- The `for out in self.outs: if out.status(): return True` loop of
`changed_outs`, with its early return. -/
def changedOutsLoop : List Out → Bool
  | [] => false
  | o :: rest => if o.status_nonempty then true else changedOutsLoop rest

/-- Embedding of `Stage.changed_outs()`. -/
def changed_outs (s : Stage) : Bool := changedOutsLoop s.outs

/-- Embedding of `Stage.changed_stage()`:
`self.md5 != self.compute_md5()`. -/
def changed_stage (s : Stage) : Bool := decide (s.md5 ≠ some s.computed_md5)

/-- The three staleness checks, in the order `_changed` names them. -/
inductive Check where
  | stage : Check
  | deps : Check
  | outs : Check
deriving DecidableEq

/-- Python's short-circuiting `or` over a list of named boolean thunks:
returns the disjunction together with the list of thunks actually
evaluated (evaluation stops at the first `True`). -/
def pyOr (s : Stage) : List (Check × (Stage → Bool)) → Bool × List Check
  | [] => (false, [])
  | (n, f) :: rest =>
    if f s then (true, [n])
    else
      let r := pyOr s rest
      (r.1, n :: r.2)

/-- Embedding of `Stage._changed`:
`changed_stage(warn=True) or changed_deps() or changed_outs()`. -/
def _changed (s : Stage) : Bool × List Check :=
  pyOr s [(.stage, changed_stage), (.deps, changed_deps), (.outs, changed_outs)]

/-- Embedding of `Stage.changed()`: returns `True` iff `_changed()` did. -/
def changed (s : Stage) : Bool := if (_changed s).1 then true else false

end Stage

/-- C1: `Stage.changed()` is the short-circuited disjunction
`changed_stage or changed_deps or changed_outs`, and the checks evaluated
are exactly the prefix of (stage digest, dependency staleness, output
staleness) ending at the first check that returns true. -/
theorem C1_changed_short_circuit (s : Stage) :
    Stage.changed s =
        (Stage.changed_stage s || Stage.changed_deps s ||
          Stage.changed_outs s) ∧
      (Stage._changed s).2 =
        (if Stage.changed_stage s then [Stage.Check.stage]
        else if Stage.changed_deps s then [Stage.Check.stage, Stage.Check.deps]
        else [Stage.Check.stage, Stage.Check.deps, Stage.Check.outs]) := by
  constructor
  · rw [Stage.changed, Stage._changed, Stage.pyOr]
    cases h1 : Stage.changed_stage s with
    | true => simp [h1]
    | false =>
      rw [Stage.pyOr]
      cases h2 : Stage.changed_deps s with
      | true => simp [h1, h2, Stage.pyOr]
      | false =>
        rw [Stage.pyOr]
        cases h3 : Stage.changed_outs s with
        | true => simp [h1, h2, h3, Stage.pyOr]
        | false => simp [h1, h2, h3, Stage.pyOr]
  · rw [Stage._changed, Stage.pyOr]
    cases h1 : Stage.changed_stage s with
    | true => simp [h1]
    | false =>
      rw [Stage.pyOr]
      cases h2 : Stage.changed_deps s with
      | true => simp [h1, h2, Stage.pyOr]
      | false =>
        rw [Stage.pyOr]
        cases h3 : Stage.changed_outs s with
        | true => simp [h1, h2, h3, Stage.pyOr]
        | false => simp [h1, h2, h3, Stage.pyOr]

/-- C2: `changed_deps()` is false for a locked stage; otherwise true for a
callback stage (a command and zero dependencies); otherwise true when
`always_changed` is set; otherwise true iff some dependency's `dep.status()`
is non-empty. -/
theorem C2_changed_deps_cases (s : Stage) :
    Stage.changed_deps s =
      (if s.locked then false
      else if s.cmd.isSome ∧ s.deps = [] then true
      else if s.always_changed then true
      else s.deps.any Dep.status_nonempty) := by
  have hloop : ∀ l : List Dep,
      Stage.changedDepsLoop l = l.any Dep.status_nonempty := by
    intro l
    induction l with
    | nil => simp [Stage.changedDepsLoop]
    | cons d t ih =>
      rw [Stage.changedDepsLoop]
      cases h : d.status_nonempty <;> simp [h, ih]
  have hcb : Stage.is_callback s = decide (s.cmd.isSome ∧ s.deps = []) := by
    rw [Stage.is_callback, Stage.is_data_source]
    cases hc : s.cmd with
    | none => simp
    | some c =>
      cases hd : s.deps with
      | nil => simp [hd]
      | cons a t => simp [hd]
  rw [Stage.changed_deps, hloop, hcb]
  by_cases h1 : s.locked = true
  · simp [h1]
  · by_cases h2 : s.cmd.isSome ∧ s.deps = []
    · simp [h1, h2]
    · by_cases h3 : s.always_changed = true <;> simp [h1, h2, h3]

/-! ## Checkout aggregation (`Stage.checkout`) -/

/-- The result dict `{"failed": [], "added": [], "modified": []}` built by
`Stage.checkout`. -/
structure CheckoutSummary where
  failed : List String
  added : List String
  modified : List String

namespace Stage

/-- Embedding of `Stage._filter_outs(path_info)`: keeps the outputs whose
`path_info` lies in (or equals) the filter, all outputs when no filter is
given. The path containment test `path_info.isin_or_eq` is abstracted as the
predicate carried by the filter. -/
def _filter_outs (s : Stage) (filter_info : Option (String → Bool)) :
    List Out :=
  match filter_info with
  | some p => s.outs.filter fun o => p o.path_info
  | none => s.outs

/-- One iteration of the `for out in self._filter_outs(...)` loop of
`Stage.checkout`: a `CheckoutError` extends `failed` with the error's
`target_infos`; otherwise `added, modified = result or (None, None)` and the
output path is appended to `modified`, or else to `added`, when the
corresponding component is set. -/
def checkoutStep (cs : CheckoutSummary) (out : Out) : CheckoutSummary :=
  match out.checkout_result with
  | .error targets => { cs with failed := cs.failed ++ targets }
  | .ok result =>
    let am := result.getD (false, false)
    if am.2 then { cs with modified := cs.modified ++ [out.path_info] }
    else if am.1 then { cs with added := cs.added ++ [out.path_info] }
    else cs

/-- Embedding of `Stage.checkout(...)`: fold the loop body over every
targeted output, starting from the empty result dict. -/
def checkout (s : Stage) (filter_info : Option (String → Bool)) :
    CheckoutSummary :=
  (s._filter_outs filter_info).foldl checkoutStep ⟨[], [], []⟩

/-- The `target_infos` contributed by one output: the error's target paths
when its checkout raised `CheckoutError`, nothing otherwise. -/
def failTargets (out : Out) : List String :=
  match out.checkout_result with
  | .error targets => targets
  | .ok _ => []

/-- Whether the output's checkout succeeded reporting `modified`. -/
def succModified (out : Out) : Bool :=
  match out.checkout_result with
  | .error _ => false
  | .ok result => (result.getD (false, false)).2

/-- Whether the output's checkout succeeded reporting `added` (and not
`modified`, which takes precedence in the loop). -/
def succAdded (out : Out) : Bool :=
  match out.checkout_result with
  | .error _ => false
  | .ok result =>
    !(result.getD (false, false)).2 && (result.getD (false, false)).1

theorem checkout_foldl_char (outs : List Out) (cs : CheckoutSummary) :
    outs.foldl checkoutStep cs =
      ⟨cs.failed ++ outs.flatMap failTargets,
        cs.added ++ (outs.filter succAdded).map Out.path_info,
        cs.modified ++ (outs.filter succModified).map Out.path_info⟩ := by
  induction outs generalizing cs with
  | nil => simp
  | cons o t ih =>
    rw [List.foldl_cons, ih]
    cases cs with
    | mk f a m =>
      cases h : o.checkout_result with
      | error targets =>
        simp [checkoutStep, h, failTargets, succAdded, succModified]
      | ok result =>
        cases ham : result.getD (false, false) with
        | mk av mv =>
          cases mv with
          | true =>
            simp [checkoutStep, h, ham, failTargets, succAdded, succModified]
          | false =>
            cases av with
            | true =>
              simp [checkoutStep, h, ham, failTargets, succAdded,
                succModified]
            | false =>
              simp [checkoutStep, h, ham, failTargets, succAdded,
                succModified]

end Stage

/-- C3: `Stage.checkout` aggregates over every targeted output: the `failed`
list is the concatenation of the `target_infos` of every output whose
checkout raised `CheckoutError`, while every output whose checkout succeeded
still lands in `added` (or `modified`) regardless of other outputs'
failures — no failure aborts the loop, and all failures are surfaced
together in the single returned result. -/
theorem C3_checkout_aggregates_failures (s : Stage)
    (filter_info : Option (String → Bool)) :
    (Stage.checkout s filter_info).failed =
        (s._filter_outs filter_info).flatMap Stage.failTargets ∧
      (Stage.checkout s filter_info).added =
        ((s._filter_outs filter_info).filter Stage.succAdded).map
          Out.path_info ∧
      (Stage.checkout s filter_info).modified =
        ((s._filter_outs filter_info).filter Stage.succModified).map
          Out.path_info := by
  rw [Stage.checkout, Stage.checkout_foldl_char]
  simp

/-! ## Run-cache bypass in `create_stage` -/

/-- The observable outcome of the run-cache block of `create_stage`:
the returned value (`none` models the `return None` taken when the stage is
skipped as cached) and whether `stage.can_be_skipped` was evaluated at all
(Python's `and` only evaluates it when `ignore_run_cache` is false). -/
structure CreateResult where
  stage : Option Stage
  consulted_run_cache : Bool

/-- Embedding of the run-cache portion of `create_stage` (the part guarded
by `stage.dvcfile.exists()`): `has_persist_outs = any(out.persist ...)`,
`ignore_run_cache = not kwargs.get("run_cache", True) or has_persist_outs`,
and the stage is skipped only when the run-cache is not ignored and
`can_be_skipped` holds. `dvcfile_exists` and `can_be_skipped` are the
observed results of the corresponding calls. -/
def create_stage (s : Stage) (dvcfile_exists run_cache can_be_skipped : Bool) :
    CreateResult :=
  if dvcfile_exists then
    let has_persist_outs := s.outs.any Out.persist
    let ignore_run_cache := !run_cache || has_persist_outs
    if !ignore_run_cache then
      if can_be_skipped then ⟨none, true⟩ else ⟨some s, true⟩
    else ⟨some s, false⟩
  else ⟨some s, false⟩

/-- A stage with an existing dvcfile and an empty output list: all of its
outputs are (vacuously) `persist`. -/
def stageNoOuts : Stage :=
  { cmd := some "cmd"
    deps := [⟨false⟩]
    outs := []
    md5 := some "d41d8cd98f00b204e9800998ecf8427e"
    computed_md5 := "d41d8cd98f00b204e9800998ecf8427e"
    locked := false
    always_changed := false }

/-- C8 counterexample: for a stage whose (empty) output list vacuously
consists only of `persist` outputs, `create_stage` still consults
`can_be_skipped` and skips the stage as cached (`has_persist_outs` is
`any(...)`, which is false on an empty list), refuting the claim for the
all-`persist` stage with zero outputs. -/
theorem C8_counterexample_empty_outs :
    stageNoOuts.outs.all Out.persist = true ∧
      (create_stage stageNoOuts true true true).consulted_run_cache = true ∧
      (create_stage stageNoOuts true true true).stage = none :=
  ⟨rfl, rfl, rfl⟩

/-- C8 (amended): for every stage being created that has at least one
`persist` output (in particular a stage with a nonempty, all-`persist`
output list), the run-cache is bypassed entirely: `can_be_skipped` is not
consulted and `create_stage` returns the new stage rather than skipping
it. -/
theorem C8_persist_outs_bypass_run_cache (s : Stage)
    (dvcfile_exists run_cache can_be_skipped : Bool)
    (h : ∃ o ∈ s.outs, o.persist = true) :
    (create_stage s dvcfile_exists run_cache
          can_be_skipped).consulted_run_cache = false ∧
      (create_stage s dvcfile_exists run_cache can_be_skipped).stage =
        some s := by
  have hany : s.outs.any Out.persist = true := by
    rcases h with ⟨o, ho, hp⟩
    exact List.any_eq_true.mpr ⟨o, ho, hp⟩
  cases dvcfile_exists with
  | false => exact ⟨rfl, rfl⟩
  | true =>
    rw [create_stage]
    simp [hany]

/-- A stage with a single `persist` output. -/
def stagePersistOut : Stage :=
  { cmd := some "cmd"
    deps := []
    outs := [⟨false, true, "model.ckpt", Except.ok none⟩]
    md5 := none
    computed_md5 := "d41d8cd98f00b204e9800998ecf8427e"
    locked := false
    always_changed := false }

/-- Witness for the amended C8 on a concrete stage with one persist
output. -/
theorem C8_persist_outs_bypass_run_cache_witness :
    (create_stage stagePersistOut true true true).consulted_run_cache =
        false ∧
      (create_stage stagePersistOut true true true).stage =
        some stagePersistOut :=
  C8_persist_outs_bypass_run_cache stagePersistOut true true true
    ⟨⟨false, true, "model.ckpt", Except.ok none⟩, by simp [stagePersistOut],
      rfl⟩

/-! ## Run-cache check `is_cached` / `can_be_skipped`

`Stage.is_cached` compares the current stage against `old = self.reload()`,
the most recently stored definition for the same (file, name). Its side
effects — `self.save_deps()` and `old.commit()` — are tracked in an explicit
state. The comparison `stage_dump_eq(Stage, old.dumpd(), self.dumpd())`
(defined in `dvc/stage/utils.py`) is abstracted as the boolean relation
`dump_eq` on serialized dumps. -/

/-- The stored (reloaded) definition: the observed result of its
`changed_outs()` and its serialized `dumpd()`. -/
structure OldStage where
  changed_outs : Bool
  dump : String

/-- The fields of the current stage that `is_cached`/`can_be_skipped`
consult. `dump_after_save` is `self.dumpd()` as evaluated after
`self.save_deps()` has recorded the dependency checksums (the state in which
`is_cached` performs the comparison). -/
structure CurStage where
  is_callback : Bool
  always_changed : Bool
  dump_after_save : String

/-- The side effects of `is_cached`: whether `self.save_deps()` has run and
whether `old.commit()` has run (committing the prior definition's outputs to
cache). -/
structure CacheState where
  deps_saved : Bool
  old_committed : Bool

namespace CurStage

/-- Embedding of `Stage.is_cached`: return false if the old definition's
outputs changed; otherwise save the dependency checksums, return false if
the dumps differ, and otherwise commit the old definition's outputs and
return true. -/
def is_cached (self : CurStage) (old : OldStage)
    (dump_eq : String → String → Bool) (st : CacheState) :
    Bool × CacheState :=
  if old.changed_outs then (false, st)
  else
    let st1 := { st with deps_saved := true }
    if !dump_eq old.dump self.dump_after_save then (false, st1)
    else (true, { st1 with old_committed := true })

/-- Embedding of `Stage.can_be_skipped`:
`self.is_cached and not self.is_callback and not self.always_changed`
(Python's `and` evaluates `is_cached`, with its side effects, first). -/
def can_be_skipped (self : CurStage) (old : OldStage)
    (dump_eq : String → String → Bool) (st : CacheState) :
    Bool × CacheState :=
  let r := is_cached self old dump_eq st
  (r.1 && !self.is_callback && !self.always_changed, r.2)

end CurStage

/-- C7: `can_be_skipped` holds iff the stage is not a callback stage, not
`always_changed`, and `is_cached` holds; `is_cached` holds exactly when the
stored definition's outputs are unchanged and its dump equals the current
stage's dump taken after saving dependency checksums; and whenever
`is_cached` evaluates to true, the stored definition's outputs have been
committed to cache as a side effect. -/
theorem C7_can_be_skipped_iff (self : CurStage) (old : OldStage)
    (dump_eq : String → String → Bool) (st : CacheState) :
    ((CurStage.can_be_skipped self old dump_eq st).1 = true ↔
        (self.is_callback = false ∧ self.always_changed = false ∧
          (CurStage.is_cached self old dump_eq st).1 = true)) ∧
      ((CurStage.is_cached self old dump_eq st).1 = true ↔
        (old.changed_outs = false ∧
          dump_eq old.dump self.dump_after_save = true)) ∧
      ((CurStage.is_cached self old dump_eq st).1 = true →
        (CurStage.is_cached self old dump_eq st).2.old_committed = true) := by
  refine ⟨?_, ?_, ?_⟩
  · rw [CurStage.can_be_skipped]
    cases hc : (CurStage.is_cached self old dump_eq st).1 <;>
      cases hcb : self.is_callback <;>
        cases ha : self.always_changed <;> simp [hc, hcb, ha]
  · rw [CurStage.is_cached]
    cases ho : old.changed_outs with
    | true => simp [ho]
    | false =>
      cases hd : dump_eq old.dump self.dump_after_save <;> simp [ho, hd]
  · rw [CurStage.is_cached]
    cases ho : old.changed_outs with
    | true => simp [ho]
    | false =>
      cases hd : dump_eq old.dump self.dump_after_save <;> simp [ho, hd]

/-- Witness for C7 at a concrete cached stage: `is_cached` is true and the
old definition's outputs end up committed. -/
theorem C7_can_be_skipped_iff_witness :
    (CurStage.is_cached ⟨false, false, "dump"⟩ ⟨false, "dump"⟩
          (fun a b => a == b) ⟨false, false⟩).1 = true ∧
      (CurStage.is_cached ⟨false, false, "dump"⟩ ⟨false, "dump"⟩
          (fun a b => a == b) ⟨false, false⟩).2.old_committed = true := by
  have h := C7_can_be_skipped_iff ⟨false, false, "dump"⟩ ⟨false, "dump"⟩
    (fun a b => a == b) ⟨false, false⟩
  have hc : (CurStage.is_cached ⟨false, false, "dump"⟩ ⟨false, "dump"⟩
      (fun a b => a == b) ⟨false, false⟩).1 = true :=
    h.2.1.mpr ⟨rfl, by decide⟩
  exact ⟨hc, h.2.2 hc⟩

/-! ## Immutable Index (`dvc/repo/index.py`)

Stages are identified by their hash identity (`(path_in_repo, name)`),
modelled as opaque ids; the pyrsistent persistent set `_stages` is modelled
as a `Finset`. `Index._mutate` never touches the receiver: it builds
`Index(self.repo, self.fs, stages=...)` around the stage set returned by the
persistent-set method, which is exactly what the embedding's pure
record-construction expresses. -/

structure Index where
  repo : Nat
  fs : Nat
  stages : Finset Nat
deriving DecidableEq

namespace Index

/-- Embedding of `Index._mutate` (with the default `check_graphs=False` used
by all five operators): a new `Index` around the derived stage set, sharing
`repo` and `fs`. -/
def _mutate (i : Index) (f : Finset Nat → Finset Nat) : Index :=
  ⟨i.repo, i.fs, f i.stages⟩

/-- `pset.add(element)`. -/
def add (i : Index) (s : Nat) : Index := i._mutate (fun st => insert s st)

/-- `pset.update(iterable)`: union with the argument collection. -/
def update (i : Index) (l : List Nat) : Index :=
  i._mutate (fun st => st ∪ l.toFinset)

/-- `pset.difference(iterable)`: set difference. -/
def difference (i : Index) (l : List Nat) : Index :=
  i._mutate (fun st => st \ l.toFinset)

/-- `pset.discard(element)`: removal, no error when absent. -/
def discard (i : Index) (s : Nat) : Index := i._mutate (fun st => st.erase s)

/-- `pset.remove(element)`: removal, raising `KeyError` (modelled as `none`)
when the element is absent. -/
def remove (i : Index) (s : Nat) : Option Index :=
  if s ∈ i.stages then some (i._mutate (fun st => st.erase s)) else none

end Index

/-- C4: each mutation operator returns a new `Index` whose stage set is the
corresponding set operation applied to the receiver's stage set (sharing the
receiver's `repo` and `fs`); the receiver itself is never mutated —
`_mutate` constructs a fresh `Index` value, which the embedding renders as
pure record construction, so the receiver's stage set is definitionally
untouched. -/
theorem C4_index_mutation_operators (i : Index) (s : Nat) (l : List Nat) :
    i.add s = ⟨i.repo, i.fs, insert s i.stages⟩ ∧
      i.update l = ⟨i.repo, i.fs, i.stages ∪ l.toFinset⟩ ∧
      i.difference l = ⟨i.repo, i.fs, i.stages \ l.toFinset⟩ ∧
      i.discard s = ⟨i.repo, i.fs, i.stages.erase s⟩ ∧
      i.remove s =
        (if s ∈ i.stages then some ⟨i.repo, i.fs, i.stages.erase s⟩
        else none) := by
  refine ⟨rfl, rfl, rfl, rfl, ?_⟩
  rw [Index.remove]
  by_cases h : s ∈ i.stages <;> simp [h, Index._mutate]

/-! ## `Index.deterministic_hash`

`deterministic_hash` serializes `dict(map(stage_kv, self))` with
`json.dumps(..., sort_keys=True)` and digests the result with
`hashlib.md5`. The pset iteration order is modelled by taking the stages as
a list in iteration order; `md5` is modelled as a fixed deterministic digest
function of the serialized string (the property at stake depends only on
the digest being a function of its input). -/

/-- A stage as `deterministic_hash` sees it: `path_in_repo`, `name` (empty
for single-stage files, per `getattr(stage, "name", "")`) and the stage
digest (`stage.md5 or stage.compute_md5()`). -/
structure IdxStage where
  path_in_repo : String
  name : String
  md5 : String
deriving DecidableEq

/-- Embedding of `stage_kv`:
`("::".join([stage.path_in_repo, name]), stage.md5)`. -/
def stage_kv (s : IdxStage) : String × String :=
  (s.path_in_repo ++ "::" ++ s.name, s.md5)

/-- Python dict insertion `d[k] = v`: overwrite the value when the key is
present, append otherwise. -/
def dictInsert (d : List (String × String)) (kv : String × String) :
    List (String × String) :=
  if d.any fun p => decide (p.1 = kv.1) then
    d.map fun p => if p.1 = kv.1 then (p.1, kv.2) else p
  else d ++ [kv]

/-- Embedding of `dict(pairs)`: left-to-right insertion into an initially
empty dict. -/
def dictOfList (l : List (String × String)) : List (String × String) :=
  l.foldl dictInsert []

/-- Key order used by `json.dumps(..., sort_keys=True)`. -/
def keyLe (a b : String × String) : Prop := a.1 ≤ b.1

instance : DecidableRel keyLe := fun a b =>
  inferInstanceAs (Decidable (a.1 ≤ b.1))

instance : IsTotal (String × String) keyLe := ⟨fun a b => le_total a.1 b.1⟩

instance : IsTrans (String × String) keyLe :=
  ⟨fun _ _ _ hab hbc => le_trans hab hbc⟩

/-- The key-sorted entry list produced by `sort_keys=True`. -/
def sortByKey (l : List (String × String)) : List (String × String) :=
  l.insertionSort keyLe

/-- One `"key": "value"` member of the serialized JSON object. -/
def renderEntry (p : String × String) : String :=
  "\"" ++ p.1 ++ "\": \"" ++ p.2 ++ "\""

/-- The serialized JSON object, members in the given order. -/
def renderJson (l : List (String × String)) : String :=
  "\x7b" ++ String.intercalate ", " (l.map renderEntry) ++ "\x7d"

/-- Model of `hashlib.md5(...).hexdigest()` as a fixed deterministic digest
of the serialized byte string. -/
def md5Nat (s : String) : Nat :=
  s.foldl (fun h c => (h * 131 + c.toNat) % (2 ^ 128)) 0

/-- Embedding of `Index.deterministic_hash`. -/
def deterministic_hash (stages : List IdxStage) : Nat :=
  md5Nat (renderJson (sortByKey (dictOfList (stages.map stage_kv))))

theorem dictInsert_append (acc : List (String × String))
    (kv : String × String)
    (h : kv.1 ∉ acc.map Prod.fst) : dictInsert acc kv = acc ++ [kv] := by
  rw [dictInsert, if_neg]
  intro hc
  rcases List.any_eq_true.mp hc with ⟨p, hp, hpe⟩
  exact h (of_decide_eq_true hpe ▸ List.mem_map_of_mem Prod.fst hp)

theorem dictOfList_nodup_keys (l acc : List (String × String))
    (h : ((acc ++ l).map Prod.fst).Nodup) :
    l.foldl dictInsert acc = acc ++ l := by
  induction l generalizing acc with
  | nil => simp
  | cons kv t ih =>
    have hk : kv.1 ∉ acc.map Prod.fst := by
      intro hmem
      have hsplit : ((acc ++ kv :: t).map Prod.fst) =
          acc.map Prod.fst ++ kv.1 :: t.map Prod.fst := by simp
      rw [hsplit] at h
      rcases List.nodup_append.mp h with ⟨_, _, hdisj⟩
      exact hdisj hmem (List.mem_cons_self _ _)
    rw [List.foldl_cons, dictInsert_append acc kv hk]
    have h' : (((acc ++ [kv]) ++ t).map Prod.fst).Nodup := by
      simpa using h
    rw [ih (acc ++ [kv]) h']
    simp

theorem sorted_perm_nodup_keys_eq :
    ∀ l₁ l₂ : List (String × String), l₁.Perm l₂ →
      l₁.Pairwise keyLe → l₂.Pairwise keyLe →
      (l₁.map Prod.fst).Nodup → l₁ = l₂ := by
  intro l₁
  induction l₁ with
  | nil =>
    intro l₂ hp _ _ _
    exact (List.Perm.nil_eq hp).symm ▸ rfl
  | cons a t ih =>
    intro l₂ hp hs1 hs2 hnd
    cases l₂ with
    | nil => exact absurd hp.symm (by simp)
    | cons b t₂ =>
      have ha_mem : a ∈ b :: t₂ := hp.mem_iff.mp (by simp)
      have hb_mem : b ∈ a :: t := hp.mem_iff.mpr (by simp)
      have hab : a.1 ≤ b.1 := by
        rcases List.mem_cons.mp hb_mem with h | h
        · exact h ▸ le_refl _
        · exact (List.pairwise_cons.mp hs1).1 b h
      have hba : b.1 ≤ a.1 := by
        rcases List.mem_cons.mp ha_mem with h | h
        · exact h ▸ le_refl _
        · exact (List.pairwise_cons.mp hs2).1 a h
      have hkey : a.1 = b.1 := le_antisymm hab hba
      have hab_eq : a = b := by
        rcases List.mem_cons.mp hb_mem with h | h
        · exact h.symm
        · exfalso
          have hin : b.1 ∈ t.map Prod.fst := List.mem_map_of_mem Prod.fst h
          have hnotin : a.1 ∉ t.map Prod.fst := by
            have : (a.1 :: t.map Prod.fst).Nodup := by simpa using hnd
            exact (List.nodup_cons.mp this).1
          exact hnotin (hkey ▸ hin)
      subst hab_eq
      have ht : t.Perm t₂ := hp.cons_inv
      have := ih t₂ ht (List.pairwise_cons.mp hs1).2
        (List.pairwise_cons.mp hs2).2
        (by
          have : (a.1 :: t.map Prod.fst).Nodup := by simpa using hnd
          exact (List.nodup_cons.mp this).2)
      rw [this]

/-- C6: two `Index` values over equal stage sets — the same stages listed in
any iteration orders — have identical `deterministic_hash`, because the
digest is taken over the key-sorted serialization of the
`(path::name) → digest` dict, and stage identity makes the keys unique. -/
theorem C6_deterministic_hash_order_independent (l₁ l₂ : List IdxStage)
    (hperm : l₁.Perm l₂)
    (hnd : (l₁.map fun s => s.path_in_repo ++ "::" ++ s.name).Nodup) :
    deterministic_hash l₁ = deterministic_hash l₂ := by
  have hkeys₁ : ((l₁.map stage_kv).map Prod.fst).Nodup := by
    have : (l₁.map stage_kv).map Prod.fst =
        l₁.map fun s => s.path_in_repo ++ "::" ++ s.name := by
      simp [stage_kv, Function.comp]
    rw [this]; exact hnd
  have hpkv : (l₁.map stage_kv).Perm (l₂.map stage_kv) := hperm.map stage_kv
  have hkeys₂ : ((l₂.map stage_kv).map Prod.fst).Nodup :=
    (hpkv.map Prod.fst).nodup_iff.mp hkeys₁
  have hd₁ : dictOfList (l₁.map stage_kv) = l₁.map stage_kv :=
    dictOfList_nodup_keys (l₁.map stage_kv) [] (by simpa using hkeys₁)
  have hd₂ : dictOfList (l₂.map stage_kv) = l₂.map stage_kv :=
    dictOfList_nodup_keys (l₂.map stage_kv) [] (by simpa using hkeys₂)
  have hsorted_eq : sortByKey (l₁.map stage_kv) =
      sortByKey (l₂.map stage_kv) := by
    apply sorted_perm_nodup_keys_eq
    · exact ((List.perm_insertionSort keyLe _).trans hpkv).trans
        (List.perm_insertionSort keyLe _).symm
    · exact List.sorted_insertionSort keyLe _
    · exact List.sorted_insertionSort keyLe _
    · exact ((List.perm_insertionSort keyLe (l₁.map stage_kv)).map
        Prod.fst).nodup_iff.mpr hkeys₁
  rw [deterministic_hash, deterministic_hash, hd₁, hd₂, hsorted_eq]

/-- Two concrete stages, inserted in both orders. -/
def idxStageA : IdxStage := ⟨"train.dvc", "", "aaaa"⟩

/-- A second concrete stage for the C6 witness. -/
def idxStageB : IdxStage := ⟨"dvc.yaml", "train", "bbbb"⟩

/-- Witness for C6 on a two-stage set inserted in both orders. -/
theorem C6_deterministic_hash_order_independent_witness :
    deterministic_hash [idxStageA, idxStageB] =
      deterministic_hash [idxStageB, idxStageA] :=
  C6_deterministic_hash_order_independent [idxStageA, idxStageB]
    [idxStageB, idxStageA] (List.Perm.swap idxStageB idxStageA [])
    (by decide)

/-! ## `DvcIgnoreFilter` (`dvc/ignore.py`)

Absolute paths are modelled as segment lists; `relpath(path, root)` starts
with `..` exactly when `root` is not a prefix of `path`. The pattern lookup
that `check_ignore` performs (`_get_trie_pattern` plus `match_details`) and
the matcher backing `_is_ignored` may themselves raise
`OutOfWorkingSpaceError`; both are represented as `Except Unit` results. -/

/-- An absolute filesystem path, as its list of segments. -/
abbrev PathSegs := List String

namespace DvcIgnoreFilter

/-- Embedding of `DvcIgnoreFilter._outside_repo`: raise
`OutOfWorkingSpaceError` (the `.error` branch) when `relpath(path,
root_dir)` starts with `..`, i.e. when `root_dir` is not a prefix of the
path. -/
def _outside_repo (root path : PathSegs) : Except Unit Unit :=
  if root.isPrefixOf path then .ok () else .error ()

/-- One `check_ignore` result row, `CheckIgnoreResult(file, matches,
patterns)`. -/
structure CheckIgnoreResult where
  file : PathSegs
  matches' : Bool
  patterns : List String
deriving DecidableEq

/-- Embedding of the per-target body of `DvcIgnoreFilter.check_ignore`:
inside the `try`, verify the target is inside the repo and collect the
matched-pattern details (`details` models `_get_trie_pattern` +
`match_details`, which may themselves raise); a non-empty match list is
reported as `(target, True, matches)`, and every other control path — an
empty match list or a caught `OutOfWorkingSpaceError` — falls through to
`(target, False, ["::"])`. -/
def check_ignore_target (root target : PathSegs)
    (details : PathSegs → Except Unit (List String)) : CheckIgnoreResult :=
  match _outside_repo root target with
  | .error _ => ⟨target, false, ["::"]⟩
  | .ok _ =>
    match details target with
    | .error _ => ⟨target, false, ["::"]⟩
    | .ok ms =>
      if ms.isEmpty then ⟨target, false, ["::"]⟩
      else ⟨target, true, ms⟩

/-- Embedding of `DvcIgnoreFilter._is_ignored`: inside the `try`, check the
path is in the repo and apply the trie pattern (`matcher` models
`_get_trie_pattern` + `matches`); a caught `OutOfWorkingSpaceError` makes
the path ignored. -/
def _is_ignored (root path : PathSegs)
    (matcher : PathSegs → Except Unit Bool) : Bool :=
  match _outside_repo root path with
  | .error _ => true
  | .ok _ =>
    match matcher path with
    | .error _ => true
    | .ok b => b

/-- Embedding of `DvcIgnoreFilter.is_ignored_dir`: the repository root
itself is never ignored; any other path goes through `_is_ignored` with
`is_dir=True` folded into the matcher. -/
def is_ignored_dir (root path : PathSegs)
    (matcher : PathSegs → Except Unit Bool) : Bool :=
  if path = root then false
  else _is_ignored root path matcher

end DvcIgnoreFilter

/-- A concrete repository root for the C9 counterexample. -/
def rootC9 : PathSegs := ["home", "user", "repo"]

/-- A concrete target outside `rootC9`. -/
def targetC9 : PathSegs := ["home", "other", "file"]

/-- C9 counterexample: for a target outside the repository root,
`check_ignore` reports the target as **not** ignored (`matches = False`,
with the placeholder pattern list `["::"]`), refuting the claim that such a
target is reported as ignored. -/
theorem C9_counterexample_outside_not_reported_ignored :
    DvcIgnoreFilter._outside_repo rootC9 targetC9 = .error () ∧
      (DvcIgnoreFilter.check_ignore_target rootC9 targetC9
          (fun _ => .ok [])).matches' = false :=
  ⟨rfl, rfl⟩

/-- C9 (amended): for every `check_ignore` target outside the repository
root, the internal scope check fails with the path-out-of-scope condition
(`OutOfWorkingSpaceError`), the returned result reports the target as not
ignored with the placeholder pattern list `["::"]`, while the internal
ignore predicate `_is_ignored` treats such paths as ignored (returns
true). -/
theorem C9_check_ignore_outside_repo (root target : PathSegs)
    (details : PathSegs → Except Unit (List String))
    (matcher : PathSegs → Except Unit Bool)
    (h : ¬ root.isPrefixOf target = true) :
    DvcIgnoreFilter._outside_repo root target = .error () ∧
      DvcIgnoreFilter.check_ignore_target root target details =
        ⟨target, false, ["::"]⟩ ∧
      DvcIgnoreFilter._is_ignored root target matcher = true := by
  have ho : DvcIgnoreFilter._outside_repo root target = .error () := by
    rw [DvcIgnoreFilter._outside_repo, if_neg h]
  refine ⟨ho, ?_, ?_⟩
  · rw [DvcIgnoreFilter.check_ignore_target, ho]
  · rw [DvcIgnoreFilter._is_ignored, ho]

/-- Witness for the amended C9 at the concrete out-of-root target. -/
theorem C9_check_ignore_outside_repo_witness :
    DvcIgnoreFilter._outside_repo rootC9 targetC9 = .error () ∧
      DvcIgnoreFilter.check_ignore_target rootC9 targetC9 (fun _ => .ok []) =
        ⟨targetC9, false, ["::"]⟩ ∧
      DvcIgnoreFilter._is_ignored rootC9 targetC9 (fun _ => .ok false) =
        true :=
  C9_check_ignore_outside_repo rootC9 targetC9 (fun _ => .ok [])
    (fun _ => .ok false) (by decide)

/-! ## Built-in exclusions of `DvcIgnoreFilter` -/

/-- The built-in exclusions installed by `DvcIgnoreFilter.__init__`:
`[".hg/", ".git/", "{}/".format(Repo.DVC_DIR)]` with `Repo.DVC_DIR` being
`".dvc"`. -/
def default_ignore_patterns : List String := [".hg/", ".git/", ".dvc/"]

/-- Model of the regex compiled by `GitWildMatchPattern.pattern_to_regex`
from a directory-only pattern `name/` (`^(?:.+/)?name/.*$`): the path
contains `name` as a non-final segment. -/
def dirPatternMatcher (name : String) : Matcher := fun p =>
  ((splitSlash p).dropLast).any fun seg => decide (seg = name)

/-- The compiled form of the built-in exclusions. -/
def builtinEntries : List RegexEntry :=
  [⟨dirPatternMatcher ".hg", some true⟩,
    ⟨dirPatternMatcher ".git", some true⟩,
    ⟨dirPatternMatcher ".dvc", some true⟩]

/-- The traversal tree as `DvcIgnoreFilter._update` observes it: whether a
directory holds a `.dvcignore` file, that file's (stripped, non-empty)
pattern lines, and which child directories are nested DVC repositories. -/
structure TreeM where
  has_ignore_file : PathSegs → Bool
  ignore_file_patterns : PathSegs → List String
  subrepo_dirs : PathSegs → List String

/-- Modelled from the spec: `merge_patterns` (defined in
`dvc/pathspec_math.py`, which is absent from the sources) merges an
inherited pattern set with a deeper one by rewriting the parent's patterns
relative to the deeper anchor and appending the new patterns, the new
patterns taking precedence. At the repository root — the only anchor this
development merges at — both anchors coincide, the rewrite is the identity,
and the merge is concatenation. -/
def merge_patterns (oldP newP : List String) : List String := oldP ++ newP

/-- The `pattern_list` stored at the repository root after
`DvcIgnoreFilter.__init__`, which seeds the trie with the built-in
exclusions and runs `_update(root_dir)`: `_update` merges in the root's
`.dvcignore` patterns when that file exists and is not itself matched by
the current pattern set (`old_pattern.matches(dirname, DVCIGNORE_FILE,
False)`), and `_update_sub_repo` then merges in a `/{d}/` exclusion for
every child directory that is a nested DVC repository. -/
def root_patterns_after_init (t : TreeM) (root : PathSegs) : List String :=
  (t.subrepo_dirs root).foldl
    (fun acc d => merge_patterns acc ["/" ++ d ++ "/"])
    (if !(DvcIgnorePatterns.ignore
          (DvcIgnorePatterns.ignoreSpec builtinEntries) ".dvcignore" false)
        && t.has_ignore_file root then
      merge_patterns default_ignore_patterns (t.ignore_file_patterns root)
    else default_ignore_patterns)

/-- C10: whatever the workspace contains — with or without ignore files or
nested repositories — the pattern set anchored at the repository root keeps
the built-in exclusions `.hg/`, `.git/` and `.dvc/`; those compiled
patterns match the corresponding directory candidates, so the subtrees are
filtered from traversal; and the repository root itself is never reported
ignored by `is_ignored_dir`. -/
theorem C10_builtin_exclusions_always_present (t : TreeM) (root : PathSegs)
    (matcher : PathSegs → Except Unit Bool) :
    default_ignore_patterns ⊆ root_patterns_after_init t root ∧
      DvcIgnoreFilter.is_ignored_dir root root matcher = false ∧
      DvcIgnorePatterns.ignore
          (DvcIgnorePatterns.ignoreSpec builtinEntries) ".hg" true = true ∧
      DvcIgnorePatterns.ignore
          (DvcIgnorePatterns.ignoreSpec builtinEntries) ".git" true = true ∧
      DvcIgnorePatterns.ignore
          (DvcIgnorePatterns.ignoreSpec builtinEntries) ".dvc" true = true := by
  refine ⟨?_, ?_, by decide, by decide, by decide⟩
  · have hgrow : ∀ (ds : List String) (acc : List String),
        acc ⊆ ds.foldl (fun a d => merge_patterns a ["/" ++ d ++ "/"]) acc := by
      intro ds
      induction ds with
      | nil => intro acc; simp
      | cons d tl ih =>
        intro acc
        have h1 : acc ⊆ merge_patterns acc ["/" ++ d ++ "/"] :=
          List.subset_append_left acc _
        exact h1.trans (ih (merge_patterns acc ["/" ++ d ++ "/"]))
    have hinit : default_ignore_patterns ⊆
        (if !(DvcIgnorePatterns.ignore
              (DvcIgnorePatterns.ignoreSpec builtinEntries) ".dvcignore"
              false)
            && t.has_ignore_file root then
          merge_patterns default_ignore_patterns (t.ignore_file_patterns root)
        else default_ignore_patterns) := by
      by_cases hb : (!(DvcIgnorePatterns.ignore
              (DvcIgnorePatterns.ignoreSpec builtinEntries) ".dvcignore"
              false)
            && t.has_ignore_file root) = true
      · rw [if_pos hb]
        exact List.subset_append_left _ _
      · rw [if_neg hb]
        exact List.Subset.refl _
    exact hinit.trans (hgrow (t.subrepo_dirs root) _)
  · simp [DvcIgnoreFilter.is_ignored_dir]
